import Mathlib

/-!
Shallow embedding of the numerical core of the MooseNeuro/moose-notebooks
repository: the Nernst/GHK equilibrium-potential computations from
`Resting_membrane_potential.ipynb`, and the Hodgkin-Huxley prototype,
gate-table, spike-detection and double-exponential-synapse setup of the
synaptic-connection notebook.  Components whose implementation lives in the
external MOOSE engine (the notebooks only configure them) are modelled from
the specification and marked `Modelled from the spec:` in their doc comments.
-/

namespace MooseNb

/-- Universal gas constant as used in the notebook verification cell: `R = 8.314`. -/
noncomputable def R : ℝ := 8.314

/-- Faraday constant as used in the notebook verification cell: `F = 96485.33`. -/
noncomputable def F : ℝ := 96485.33

/-- Resting membrane potential constant from the synaptic-connection notebook:
`EREST_ACT = -70e-3`. -/
noncomputable def EREST_ACT : ℝ := -70e-3

/-- Sodium reversal potential: `ENa = 115e-3 + EREST_ACT`. -/
noncomputable def ENa : ℝ := 115e-3 + EREST_ACT

/-- Potassium reversal potential: `EK = -12e-3 + EREST_ACT`. -/
noncomputable def EK : ℝ := -12e-3 + EREST_ACT

/-- Compartment diameter from the notebook: `DIA = 30e-6`. -/
noncomputable def DIA : ℝ := 30e-6

/-- GHK voltage function, transcribed from `Resting_membrane_potential.ipynb`:
`num = P_K * K_out + P_Na * Na_out + P_Cl * Cl_in`,
`den = P_K * K_in + P_Na * Na_in + P_Cl * Cl_out`,
returning `(R * T / F) * log (num / den)`. -/
noncomputable def GHK_V (K_in K_out Na_in Na_out Cl_in Cl_out P_K P_Na P_Cl T : ℝ) : ℝ :=
  (R * T / F) * Real.log ((P_K * K_out + P_Na * Na_out + P_Cl * Cl_in) /
    (P_K * K_in + P_Na * Na_in + P_Cl * Cl_out))

/-- One ion species for the spec-level GHK description: a permeability, inside
and outside concentrations, and a cation/anion tag. -/
structure Species where
  P : ℝ
  c_in : ℝ
  c_out : ℝ
  isCation : Bool

/-- Numerator of the spec-level GHK voltage: sums `P_x * conc_out` for cations
and `P_x * conc_in` for anions. -/
noncomputable def ghkNum (l : List Species) : ℝ :=
  (l.map fun s => s.P * (if s.isCation then s.c_out else s.c_in)).sum

/-- Denominator of the spec-level GHK voltage: swaps inside and outside
relative to `ghkNum`. -/
noncomputable def ghkDen (l : List Species) : ℝ :=
  (l.map fun s => s.P * (if s.isCation then s.c_in else s.c_out)).sum

/-- Spec-level GHK voltage over a tagged species list, following the spec words:
`(R * T / F) * log (numerator / denominator)`. -/
noncomputable def ghk_voltage_spec (l : List Species) (T : ℝ) : ℝ :=
  (R * T / F) * Real.log (ghkNum l / ghkDen l)

/-- C1: `GHK_V` agrees with the spec-level `ghk_voltage_spec` on the fixed
species list K+ (cation), Na+ (cation), Cl- (anion): the numerator is
`P_K*K_out + P_Na*Na_out + P_Cl*Cl_in` and the denominator swaps in/out.
The identity holds for all inputs, in particular whenever the logarithm
argument is positive. -/
theorem ghk_matches_spec_fixed_species
    (K_in K_out Na_in Na_out Cl_in Cl_out P_K P_Na P_Cl T : ℝ) :
    GHK_V K_in K_out Na_in Na_out Cl_in Cl_out P_K P_Na P_Cl T =
      ghk_voltage_spec
        [⟨P_K, K_in, K_out, true⟩, ⟨P_Na, Na_in, Na_out, true⟩,
         ⟨P_Cl, Cl_in, Cl_out, false⟩] T := by
  unfold GHK_V ghk_voltage_spec ghkNum ghkDen
  simp only [List.map_cons, List.map_nil, List.sum_cons, List.sum_nil,
    Bool.false_eq_true, if_true, if_false]
  ring_nf

/-- Error taxonomy of the spec: a single `DomainError` kind for invalid
physical/numerical input, raised synchronously (modelled as an `Except`
result returned directly by the call that receives the bad input). -/
inductive DomainError where
  | domainError
deriving DecidableEq, Repr

/-- Nernst formula exactly as computed in the verification cell of
`Resting_membrane_potential.ipynb`: `- R * T / (z * F) * log (c_in / c_out)`. -/
noncomputable def nernstFormula (z : ℤ) (c_in c_out T : ℝ) : ℝ :=
  -(R * T) / (z * F) * Real.log (c_in / c_out)

/-- Modelled from the spec: the repository only instantiates the Nernst
formula at concrete values (the verification cell); the spec operation
`nernst(valence, c_in, c_out, temperature_K)` operation with its
`DomainError` guard (`c_in <= 0` or `c_out <= 0` or `valence == 0`) is not
in the source, so it is modelled here as an `Except`-valued pure function
whose success value is the formula of the source. -/
noncomputable def nernst (z : ℤ) (c_in c_out T : ℝ) : Except DomainError ℝ :=
  if c_in ≤ 0 ∨ c_out ≤ 0 ∨ z = 0 then Except.error DomainError.domainError
  else Except.ok (nernstFormula z c_in c_out T)

/-- C2: for every valence `z ≠ 0`, concentrations `c_in > 0`, `c_out > 0` and
temperature `T > 0`, `nernst` returns (as a pure function, modelled with no
state) exactly `-(R*T)/(z*F) * log (c_in / c_out)` volts. -/
theorem nernst_returns_formula (z : ℤ) (c_in c_out T : ℝ)
    (hz : z ≠ 0) (hin : 0 < c_in) (hout : 0 < c_out) (hT : 0 < T) :
    nernst z c_in c_out T =
      Except.ok (-(R * T) / (z * F) * Real.log (c_in / c_out)) := by
  unfold nernst nernstFormula
  rw [if_neg]
  push_neg
  exact ⟨hin, hout, hz⟩

/-- Witness for C2 at the mammalian-K+ parameters of the notebook. -/
theorem nernst_returns_formula_witness :
    nernst 1 (140e-3) (5e-3) 310.15 =
      Except.ok (-(R * 310.15) / (1 * F) * Real.log (140e-3 / 5e-3)) := by
  have h := nernst_returns_formula 1 (140e-3) (5e-3) 310.15
    (by norm_num) (by norm_num) (by norm_num) (by norm_num)
  simpa using h

/-- C6: `nernst` fails with `DomainError`, directly at the call, exactly when
`c_in ≤ 0` or `c_out ≤ 0` or `z = 0`; for all other inputs it returns
normally with the formula value. -/
theorem nernst_domain_error_iff (z : ℤ) (c_in c_out T : ℝ) :
    (nernst z c_in c_out T = Except.error DomainError.domainError ↔
      (c_in ≤ 0 ∨ c_out ≤ 0 ∨ z = 0)) ∧
    (¬(c_in ≤ 0 ∨ c_out ≤ 0 ∨ z = 0) →
      nernst z c_in c_out T = Except.ok (nernstFormula z c_in c_out T)) := by
  unfold nernst
  constructor
  · by_cases h : c_in ≤ 0 ∨ c_out ≤ 0 ∨ z = 0
    · simp [h]
    · simp [h]
  · intro h
    rw [if_neg h]

/-- Witness for C6: zero valence triggers the error even with valid
concentrations, and positive inputs return normally. -/
theorem nernst_domain_error_iff_witness :
    nernst 0 1 1 300 = Except.error DomainError.domainError ∧
      nernst 2 1 2 300 = Except.ok (nernstFormula 2 1 2 300) :=
  ⟨(nernst_domain_error_iff 0 1 1 300).1.mpr (Or.inr (Or.inr rfl)),
    (nernst_domain_error_iff 2 1 2 300).2 (by push_neg; norm_num)⟩

/-- C7: equal inside and outside concentrations give exactly zero equilibrium
potential: `nernst z c c T = ok 0` for all `z ≠ 0`, `c > 0`, `T > 0`. -/
theorem nernst_equal_conc_zero (z : ℤ) (c T : ℝ)
    (hz : z ≠ 0) (hc : 0 < c) (hT : 0 < T) :
    nernst z c c T = Except.ok 0 := by
  rw [nernst_returns_formula z c c T hz hc hc hT,
    div_self (ne_of_gt hc), Real.log_one, mul_zero]

/-- Witness for C7 at `z = 1`, `c = 140e-3`, `T = 310.15`. -/
theorem nernst_equal_conc_zero_witness :
    nernst 1 (140e-3) (140e-3) 310.15 = Except.ok 0 :=
  nernst_equal_conc_zero 1 (140e-3) 310.15 (by norm_num) (by norm_num) (by norm_num)

/-- States of the spike detector per the spec: `BELOW_THRESHOLD` or
`ABOVE_THRESHOLD`. -/
inductive DetState where
  | below
  | above
deriving DecidableEq, Repr

/-- Modelled from the spec: the `moose.SpikeGen` threshold detector the
notebook connects to neuron A is engine code; the spec state machine is
modelled here.  One voltage sample updates the state and reports whether a
spike event is emitted: `BELOW → ABOVE` with one event when the sample is
strictly above threshold, `ABOVE → BELOW` with no event when it falls back
strictly below, and no transition (no event) otherwise.  Voltage samples are
taken in `ℚ`, the exact carrier of the finite-precision samples. -/
def spikeStep (θ : ℚ) : DetState → ℚ → DetState × Bool
  | DetState.below, v => if θ < v then (DetState.above, true) else (DetState.below, false)
  | DetState.above, v => if v < θ then (DetState.below, false) else (DetState.above, false)

/-- Number of spike events emitted while feeding a voltage trace through the
detector from a given state. -/
def spikeCount (θ : ℚ) (s : DetState) : List ℚ → ℕ
  | [] => 0
  | v :: vs =>
    (if (spikeStep θ s v).2 then 1 else 0) + spikeCount θ (spikeStep θ s v).1 vs

/-- Oversampling of a voltage trace: every sample is repeated `k + 1` times,
modelling a faster sampling rate over the same underlying voltage trace. -/
def oversample (k : ℕ) : List ℚ → List ℚ
  | [] => []
  | v :: vs => List.replicate (k + 1) v ++ oversample k vs

/-- Re-sampling the same voltage from the post-step state changes nothing and
emits nothing: the detector never double-counts a plateau. -/
theorem spikeStep_stable (θ : ℚ) (s : DetState) (v : ℚ) :
    spikeStep θ (spikeStep θ s v).1 v = ((spikeStep θ s v).1, false) := by
  cases s with
  | below =>
    by_cases h : θ < v
    · simp [spikeStep, h, not_lt.mpr h.le]
    · simp [spikeStep, h]
  | above =>
    by_cases h : v < θ
    · simp [spikeStep, h, not_lt.mpr h.le]
    · simp [spikeStep, h]

/-- Repeating one sample `k` extra times from any state emits the same events
and ends in the same state as sampling it once. -/
theorem spikeCount_replicate (θ : ℚ) (s : DetState) (v : ℚ) (k : ℕ) (vs : List ℚ) :
    spikeCount θ s (List.replicate (k + 1) v ++ vs) = spikeCount θ s (v :: vs) := by
  induction k generalizing s with
  | zero => rfl
  | succ n ih =>
    have hrep : List.replicate (n + 1 + 1) v ++ vs = v :: (List.replicate (n + 1) v ++ vs) := by
      simp [List.replicate_succ]
    rw [hrep]
    show (if (spikeStep θ s v).2 then 1 else 0) +
        spikeCount θ (spikeStep θ s v).1 (List.replicate (n + 1) v ++ vs) = _
    rw [ih (spikeStep θ s v).1]
    show (if (spikeStep θ s v).2 then 1 else 0) +
        ((if (spikeStep θ (spikeStep θ s v).1 v).2 then 1 else 0) +
          spikeCount θ (spikeStep θ (spikeStep θ s v).1 v).1 vs) = _
    rw [spikeStep_stable]
    simp [spikeCount]

/-- C3: (i) a spike event is emitted on a sample exactly when the detector was
`BELOW_THRESHOLD` and transitions to `ABOVE_THRESHOLD` (one event per strictly
upward crossing); (ii) from `ABOVE_THRESHOLD` no sample ever emits an event,
so downward crossings are silent; (iii) the total event count of a trace is
invariant under oversampling (repeating every sample `k + 1` times), i.e.
independent of the sampling rate. -/
theorem spikegen_one_event_per_upward_crossing (θ : ℚ) :
    (∀ s v, (spikeStep θ s v).2 = true ↔
      (s = DetState.below ∧ (spikeStep θ s v).1 = DetState.above)) ∧
    (∀ v, (spikeStep θ DetState.above v).2 = false) ∧
    (∀ (k : ℕ) (s : DetState) (trace : List ℚ),
      spikeCount θ s (oversample k trace) = spikeCount θ s trace) := by
  refine ⟨?_, ?_, ?_⟩
  · intro s v
    cases s with
    | below => by_cases h : θ < v <;> simp [spikeStep, h]
    | above => by_cases h : v < θ <;> simp [spikeStep, h]
  · intro v
    by_cases h : v < θ <;> simp [spikeStep, h]
  · intro k s trace
    induction trace generalizing s with
    | nil => rfl
    | cons v vs ih =>
      show spikeCount θ s (List.replicate (k + 1) v ++ oversample k vs) = _
      rw [spikeCount_replicate]
      show (if (spikeStep θ s v).2 then 1 else 0) +
          spikeCount θ (spikeStep θ s v).1 (oversample k vs) = _
      rw [ih]
      rfl

/-- Modelled from the spec: a gate interpolation table as configured by the
notebook (`gate.min`, `gate.max`, `gate.divs`, tables filled by
`fillFromExpr`): a voltage domain `[vmin, vmax]` split into `divs` equal
bins, with the sample at grid point `i` given by `tbl i`.  Samples are in
`ℚ`, the exact carrier of the stored finite-precision table values. -/
structure InterpTable where
  vmin : ℚ
  vmax : ℚ
  divs : ℕ
  tbl : ℕ → ℚ

/-- Modelled from the spec: lookup clamps the voltage to `[vmin, vmax]`, finds
the bin by the scaled offset, and interpolates linearly between the two
nearest sample points; it is total (never extrapolates, never fails). -/
def interpolate (t : InterpTable) (v : ℚ) : ℚ :=
  let vc := max t.vmin (min v t.vmax)
  let dv := (t.vmax - t.vmin) / t.divs
  let i := min (⌊(vc - t.vmin) / dv⌋.toNat) (t.divs - 1)
  t.tbl i + ((vc - t.vmin) / dv - i) * (t.tbl (i + 1) - t.tbl i)

/-- C4: for a well-formed table (`vmin < vmax`, at least one division) and any
out-of-range voltage, `interpolate` returns exactly the boundary sample:
`tbl 0` below `vmin` and `tbl divs` above `vmax`.  The function is total over
its exact carrier, so it cannot extrapolate, produce a NaN, or raise. -/
theorem interpolate_clamps_to_boundary (t : InterpTable) (v : ℚ)
    (hrange : t.vmin < t.vmax) (hdivs : 1 ≤ t.divs) :
    (v < t.vmin → interpolate t v = t.tbl 0) ∧
    (t.vmax < v → interpolate t v = t.tbl t.divs) := by
  constructor
  · intro hv
    have hclamp : max t.vmin (min v t.vmax) = t.vmin := by
      rw [min_eq_left (le_of_lt (lt_trans hv hrange))]
      exact max_eq_left (le_of_lt hv)
    simp only [interpolate, hclamp, sub_self, zero_div, Int.floor_zero, Int.toNat_zero,
      Nat.zero_min, Nat.cast_zero, sub_zero, zero_mul, add_zero]
  · intro hv
    have hclamp : max t.vmin (min v t.vmax) = t.vmax := by
      rw [min_eq_right (le_of_lt hv)]
      exact max_eq_right (le_of_lt hrange)
    have hdv : (t.vmax - t.vmin) / ((t.divs : ℚ)) ≠ 0 := by
      apply div_ne_zero
      · exact sub_ne_zero.mpr (ne_of_gt hrange)
      · exact Nat.cast_ne_zero.mpr (by omega)
    have hfull : (t.vmax - t.vmin) / ((t.vmax - t.vmin) / (t.divs : ℚ)) = (t.divs : ℚ) := by
      rw [div_div_eq_mul_div, mul_comm, mul_div_assoc,
        div_self (sub_ne_zero.mpr (ne_of_gt hrange)), mul_one]
    have hfloor : (⌊(t.divs : ℚ)⌋).toNat = t.divs := by
      rw [Int.floor_natCast, Int.toNat_natCast]
    have hmin : min t.divs (t.divs - 1) = t.divs - 1 := min_eq_right (Nat.sub_le _ _)
    have hsucc : t.divs - 1 + 1 = t.divs := Nat.succ_pred_eq_of_pos (lt_of_lt_of_le one_pos hdivs)
    have hcast : ((t.divs - 1 : ℕ) : ℚ) = (t.divs : ℚ) - 1 := by
      rw [Nat.cast_sub hdivs, Nat.cast_one]
    simp only [interpolate, hclamp, hfull, hfloor, hmin, hsucc, hcast]
    ring

/-- Witness for C4: a concrete 4-division table over `[0, 1]` with samples
`i ^ 2`, evaluated below and above the range. -/
theorem interpolate_clamps_to_boundary_witness :
    ((0 : ℚ) < 1 ∧ 1 ≤ 4) ∧
      (interpolate ⟨0, 1, 4, fun i => (i : ℚ) ^ 2⟩ (-5) =
        (fun i : ℕ => (i : ℚ) ^ 2) 0) ∧
      (interpolate ⟨0, 1, 4, fun i => (i : ℚ) ^ 2⟩ 7 =
        (fun i : ℕ => (i : ℚ) ^ 2) 4) := by
  refine ⟨⟨by norm_num, by norm_num⟩, ?_, ?_⟩
  · exact (interpolate_clamps_to_boundary ⟨0, 1, 4, fun i => (i : ℚ) ^ 2⟩ (-5)
      (by norm_num) (by norm_num)).1 (by norm_num)
  · exact (interpolate_clamps_to_boundary ⟨0, 1, 4, fun i => (i : ℚ) ^ 2⟩ 7
      (by norm_num) (by norm_num)).2 (by norm_num)

/-- Unnormalized double-exponential synaptic kernel
`e^(-t/tau1) - e^(-t/tau2)`, as in the conductance formula of the synaptic-connection notebook for the `SynChan` with `tau1 = 1e-3`, `tau2 = 5e-3`. -/
noncomputable def doubleExpKernel (tau1 tau2 t : ℝ) : ℝ :=
  Real.exp (-t / tau1) - Real.exp (-t / tau2)

/-- Time of the kernel peak:
`t_peak = tau1 * tau2 / (tau2 - tau1) * log (tau2 / tau1)`. -/
noncomputable def t_peak (tau1 tau2 : ℝ) : ℝ :=
  tau1 * tau2 / (tau2 - tau1) * Real.log (tau2 / tau1)

/-- Modelled from the spec: the engine `SynChan` setup computes, once, the
normalization constant `1 / (e^(-t_peak/tau1) - e^(-t_peak/tau2))` so the
scaled kernel peaks at 1, and fails with `DomainError` when `tau1 == tau2`
(degenerate kernel). -/
noncomputable def synSetup (tau1 tau2 : ℝ) : Except DomainError ℝ :=
  if tau1 = tau2 then Except.error DomainError.domainError
  else Except.ok (1 / doubleExpKernel tau1 tau2 (t_peak tau1 tau2))

/-- Scaled kernel value at the peak time is nonzero for distinct positive time
constants, so the normalization constant is well defined. -/
theorem doubleExpKernel_at_peak_ne_zero (tau1 tau2 : ℝ)
    (h1 : 0 < tau1) (h2 : 0 < tau2) (hne : tau1 ≠ tau2) :
    doubleExpKernel tau1 tau2 (t_peak tau1 tau2) ≠ 0 := by
  unfold doubleExpKernel
  rw [sub_ne_zero]
  intro heq
  have harg : -t_peak tau1 tau2 / tau1 = -t_peak tau1 tau2 / tau2 := Real.exp_injective heq
  have htp : t_peak tau1 tau2 ≠ 0 := by
    unfold t_peak
    apply mul_ne_zero
    · apply div_ne_zero (mul_ne_zero (ne_of_gt h1) (ne_of_gt h2))
      exact sub_ne_zero.mpr (Ne.symm hne)
    · have hpos : 0 < tau2 / tau1 := div_pos h2 h1
      have hone : tau2 / tau1 ≠ 1 := by
        intro habs
        exact hne (by field_simp at habs; exact habs.symm)
      intro hlog
      rcases (Real.log_eq_zero).mp hlog with h | h | h
      · exact absurd h (ne_of_gt hpos)
      · exact hone h
      · linarith
  apply hne
  have := div_eq_div_iff (ne_of_gt h1) (ne_of_gt h2) |>.mp harg
  have h3 : t_peak tau1 tau2 * tau2 = t_peak tau1 tau2 * tau1 := by ring_nf at this ⊢; linarith
  exact (mul_left_cancel₀ htp h3).symm

/-- C5: `synSetup` fails with `DomainError` exactly when `tau1 = tau2`; and
whenever it succeeds for positive distinct time constants, the returned
normalization makes the kernel attain exactly 1 at
`t_peak = tau1*tau2/(tau2-tau1) * log (tau2/tau1)`. -/
theorem synchan_kernel_peak_normalized :
    (∀ tau1 tau2 : ℝ, synSetup tau1 tau2 = Except.error DomainError.domainError ↔
      tau1 = tau2) ∧
    (∀ tau1 tau2 norm : ℝ, 0 < tau1 → 0 < tau2 → tau1 ≠ tau2 →
      synSetup tau1 tau2 = Except.ok norm →
      norm * doubleExpKernel tau1 tau2 (t_peak tau1 tau2) = 1) := by
  constructor
  · intro tau1 tau2
    by_cases h : tau1 = tau2
    · simp [synSetup, h]
    · simp [synSetup, h]
  · intro tau1 tau2 norm h1 h2 hne hok
    have hval : norm = 1 / doubleExpKernel tau1 tau2 (t_peak tau1 tau2) := by
      unfold synSetup at hok
      rw [if_neg hne] at hok
      exact (Except.ok.injEq _ _).mp hok |>.symm
    rw [hval, one_div, inv_mul_cancel₀ (doubleExpKernel_at_peak_ne_zero tau1 tau2 h1 h2 hne)]

/-- Witness for C5 at the notebook `SynChan` values `tau1 = 1e-3`,
`tau2 = 5e-3`. -/
theorem synchan_kernel_peak_normalized_witness :
    (1 / doubleExpKernel 1e-3 5e-3 (t_peak 1e-3 5e-3)) *
      doubleExpKernel 1e-3 5e-3 (t_peak 1e-3 5e-3) = 1 := by
  refine synchan_kernel_peak_normalized.2 1e-3 5e-3 _ (by norm_num) (by norm_num)
    (by norm_num) ?_
  unfold synSetup
  rw [if_neg (by norm_num)]

/-- Lower elementary bound for the logarithm: `1 - 1/x ≤ log x` for `x > 0`,
obtained from `log x ≤ x - 1` applied to `1/x`. -/
theorem one_sub_inv_le_log (x : ℝ) (hx : 0 < x) : 1 - 1 / x ≤ Real.log x := by
  have h := Real.log_le_sub_one_of_pos (show (0:ℝ) < 1 / x by positivity)
  rw [Real.log_div one_ne_zero (ne_of_gt hx), Real.log_one, zero_sub] at h
  linarith

/-- C8: `GHK_V` at the Johnston & Wu parameters (`K_in=400, K_out=10,
Na_in=50, Na_out=460, Cl_in=40, Cl_out=540`, permeabilities `1 : 0.03 : 0.1`,
`T = 273.15 + 20`) lies within `1e-4` of `-0.0706` volts, matching the
recorded notebook output `-0.07063690565561223`. -/
theorem ghk_johnston_wu_value :
    |GHK_V 400 10 50 460 40 540 1 0.03 0.1 (273.15 + 20) + 0.0706| ≤ 1e-4 := by
  have hGHK : GHK_V 400 10 50 460 40 540 1 0.03 0.1 (273.15 + 20) =
      (R * (273.15 + 20) / F) * Real.log ((278 : ℝ) / 4555) := by
    unfold GHK_V
    norm_num
  have hs_pos : (0 : ℝ) < 4448 / 4555 := by norm_num
  have hub_s : Real.log ((4448 : ℝ) / 4555) ≤ 4448 / 4555 - 1 :=
    Real.log_le_sub_one_of_pos hs_pos
  have hlb_s : 1 - 4555 / 4448 ≤ Real.log ((4448 : ℝ) / 4555) := by
    have h := one_sub_inv_le_log ((4448 : ℝ) / 4555) hs_pos
    have hinv : 1 / ((4448 : ℝ) / 4555) = 4555 / 4448 := by norm_num
    rw [hinv] at h
    exact h
  have hsplit : Real.log ((278 : ℝ) / 4555) =
      Real.log ((4448 : ℝ) / 4555) - 4 * Real.log 2 := by
    have h16 : (278 : ℝ) / 4555 = ((4448 : ℝ) / 4555) / 2 ^ 4 := by norm_num
    rw [h16, Real.log_div (by norm_num) (by norm_num), Real.log_pow]
    norm_num
  have hub : Real.log ((278 : ℝ) / 4555) ≤ 4448 / 4555 - 1 - 4 * 0.6931471803 := by
    have h2 := Real.log_two_gt_d9
    rw [hsplit]
    linarith
  have hlb : 1 - 4555 / 4448 - 4 * 0.6931471808 ≤ Real.log ((278 : ℝ) / 4555) := by
    have h2 := Real.log_two_lt_d9
    rw [hsplit]
    linarith
  have hcpos : (0 : ℝ) ≤ R * (273.15 + 20) / F := by
    unfold R F
    norm_num
  have hup : GHK_V 400 10 50 460 40 540 1 0.03 0.1 (273.15 + 20) ≤
      (R * (273.15 + 20) / F) * (4448 / 4555 - 1 - 4 * 0.6931471803) := by
    rw [hGHK]
    exact mul_le_mul_of_nonneg_left hub hcpos
  have hdown : (R * (273.15 + 20) / F) * (1 - 4555 / 4448 - 4 * 0.6931471808) ≤
      GHK_V 400 10 50 460 40 540 1 0.03 0.1 (273.15 + 20) := by
    rw [hGHK]
    exact mul_le_mul_of_nonneg_left hlb hcpos
  have hnum_up : (R * (273.15 + 20) / F) * (4448 / 4555 - 1 - 4 * 0.6931471803) ≤
      (-0.0705 : ℝ) := by
    unfold R F
    norm_num
  have hnum_down : (-0.0707 : ℝ) ≤
      (R * (273.15 + 20) / F) * (1 - 4555 / 4448 - 4 * 0.6931471808) := by
    unfold R F
    norm_num
  rw [abs_le]
  constructor <;> linarith

/-- Denominator of the `alphaExpr` of the `m` gate, transcribed from the
notebook: `exp((25 - 1e3 * (v - EREST_ACT)) / 10) - 1`. -/
noncomputable def alpha_m_den (v : ℝ) : ℝ :=
  Real.exp ((25 - 1e3 * (v - EREST_ACT)) / 10) - 1

/-- Alpha rate of the `m` gate, transcribed from the notebook:
`1e3 * 0.1 * (25 - 1e3 * (v - EREST_ACT)) / (exp((25 - 1e3*(v-EREST_ACT))/10) - 1)`. -/
noncomputable def alpha_m (v : ℝ) : ℝ :=
  1e3 * 0.1 * (25 - 1e3 * (v - EREST_ACT)) / alpha_m_den v

/-- Beta rate of the `m` gate, transcribed from the notebook. -/
noncomputable def beta_m (v : ℝ) : ℝ :=
  1e3 * 4 * Real.exp (-(1e3) * (v - EREST_ACT) / 18)

/-- Alpha rate of the `h` gate, transcribed from the notebook. -/
noncomputable def alpha_h (v : ℝ) : ℝ :=
  1e3 * 0.07 * Real.exp (-(1e3) * (v - EREST_ACT) / 20)

/-- Beta rate of the `h` gate, transcribed from the notebook. -/
noncomputable def beta_h (v : ℝ) : ℝ :=
  1e3 / (Real.exp ((30 - 1e3 * (v - EREST_ACT)) / 10) + 1)

/-- Denominator of the `alphaExpr` of the `n` gate, transcribed from the
notebook: `exp((10 - 1e3 * (v - EREST_ACT)) / 10) - 1`. -/
noncomputable def alpha_n_den (v : ℝ) : ℝ :=
  Real.exp ((10 - 1e3 * (v - EREST_ACT)) / 10) - 1

/-- Alpha rate of the `n` gate, transcribed from the notebook. -/
noncomputable def alpha_n (v : ℝ) : ℝ :=
  1e3 * 0.01 * (10 - 1e3 * (v - EREST_ACT)) / alpha_n_den v

/-- Beta rate of the `n` gate, transcribed from the notebook. -/
noncomputable def beta_n (v : ℝ) : ℝ :=
  1e3 * 0.125 * Real.exp (-(1e3) * (v - EREST_ACT) / 80)

/-- Voltage at table grid point `k` of the gate interpolation tables the
notebook configures: `gate.min = -110e-3`, `gate.max = 50e-3`,
`gate.divs = 1000`, so the `divs + 1` evenly spaced sample voltages are
`-110e-3 + k * ((50e-3 - (-110e-3)) / 1000)` (0.16 mV spacing; the evenly
spaced sampling itself is the spec `build_table` contract for the engine
`fillFromExpr`). -/
noncomputable def tableV (k : ℕ) : ℝ :=
  -110e-3 + k * ((50e-3 - -110e-3) / 1000)

/-- C9: filling the tables never divides by zero.  The singular voltages of
`alpha_m` (at `EREST_ACT + 25e-3 = -45e-3`) and of `alpha_n` (at
`EREST_ACT + 10e-3 = -60e-3`) lie strictly inside the table range
`[-110e-3, 50e-3]`, yet at every one of the 1001 grid voltages both
denominators are nonzero: neither singular voltage lies on the grid. -/
theorem table_fill_no_division_by_zero (k : ℕ) (hk : k ≤ 1000) :
    (alpha_m_den (EREST_ACT + 25e-3) = 0 ∧ alpha_n_den (EREST_ACT + 10e-3) = 0) ∧
    (-110e-3 < EREST_ACT + 25e-3 ∧ EREST_ACT + 25e-3 < 50e-3) ∧
    (-110e-3 < EREST_ACT + 10e-3 ∧ EREST_ACT + 10e-3 < 50e-3) ∧
    alpha_m_den (tableV k) ≠ 0 ∧ alpha_n_den (tableV k) ≠ 0 := by
  refine ⟨⟨?_, ?_⟩, ⟨?_, ?_⟩, ⟨?_, ?_⟩, ?_, ?_⟩
  · unfold alpha_m_den EREST_ACT
    norm_num
  · unfold alpha_n_den EREST_ACT
    norm_num
  · unfold EREST_ACT
    norm_num
  · unfold EREST_ACT
    norm_num
  · unfold EREST_ACT
    norm_num
  · unfold EREST_ACT
    norm_num
  · unfold alpha_m_den
    rw [sub_ne_zero]
    intro habs
    have hzero : (25 - 1e3 * (tableV k - EREST_ACT)) / 10 = 0 := by
      exact Real.exp_injective (habs.trans Real.exp_zero.symm)
    unfold tableV EREST_ACT at hzero
    have hk16 : (16 : ℝ) * k = 6500 := by
      field_simp at hzero
      linarith
    have : (16 * k : ℕ) = (6500 : ℕ) := by exact_mod_cast hk16
    omega
  · unfold alpha_n_den
    rw [sub_ne_zero]
    intro habs
    have hzero : (10 - 1e3 * (tableV k - EREST_ACT)) / 10 = 0 := by
      exact Real.exp_injective (habs.trans Real.exp_zero.symm)
    unfold tableV EREST_ACT at hzero
    have hk16 : (16 : ℝ) * k = 5000 := by
      field_simp at hzero
      linarith
    have : (16 * k : ℕ) = (5000 : ℕ) := by exact_mod_cast hk16
    omega

/-- Witness for C9 at grid point `k = 406`, the grid voltage nearest to the
`alpha_m` singularity at `-45e-3`. -/
theorem table_fill_no_division_by_zero_witness :
    (406 : ℕ) ≤ 1000 ∧
      (alpha_m_den (tableV 406) ≠ 0 ∧ alpha_n_den (tableV 406) ≠ 0) :=
  ⟨by decide, (table_fill_no_division_by_zero 406 (by decide)).2.2.2⟩

/-- Surface area of the spherical prototype compartment, as computed in the
notebook: `sarea = np.pi * DIA * DIA` (with the double value of `np.pi`). -/
noncomputable def sarea : ℝ := 3.141592653589793 * DIA * DIA

/-- A gate of an HH channel after `get_hh_proto` set it up: interpolation
range, divisions, interpolation flag, and the two rate tables filled by
`fillFromExpr` (sampled rate curves on the grid `tableV`). -/
structure HHGateState where
  gmin : ℝ
  gmax : ℝ
  divs : ℕ
  useInterpolation : Bool
  tableA : ℕ → ℝ
  tableB : ℕ → ℝ

/-- An HH channel after setup: reversal potential, maximal conductance, gate
powers, and its gate states. -/
structure HHChanState where
  Ek : ℝ
  Gbar : ℝ
  Xpower : ℕ
  Ypower : ℕ
  gateX : Option HHGateState
  gateY : Option HHGateState

/-- The full prototype compartment state as `get_hh_proto` initializes it. -/
structure CompState where
  Em : ℝ
  initVm : ℝ
  Cm : ℝ
  Rm : ℝ
  na : HHChanState
  k : HHChanState

/-- Gate state built by the notebook setup loop: `min = -110e-3`,
`max = 50e-3`, `divs = 1000`, `useInterpolation = True`, tables filled by
evaluating the given rate functions on the grid. -/
noncomputable def mkGate (alphaFn betaFn : ℝ → ℝ) : HHGateState :=
  { gmin := -110e-3
    gmax := 50e-3
    divs := 1000
    useInterpolation := true
    tableA := fun i => alphaFn (tableV i)
    tableB := fun i => betaFn (tableV i) }

/-- The fully initialized prototype compartment that the body of
`get_hh_proto` builds, with all the parameter values of the notebook. -/
noncomputable def build_hh_proto : CompState :=
  { Em := EREST_ACT + 10.613e-3
    initVm := EREST_ACT
    Cm := 1e-2 * sarea
    Rm := 1 / (10 * 0.3 * sarea)
    na :=
      { Ek := ENa
        Gbar := 10 * 120 * sarea
        Xpower := 3
        Ypower := 1
        gateX := some (mkGate alpha_m beta_m)
        gateY := some (mkGate alpha_h beta_h) }
    k :=
      { Ek := EK
        Gbar := 10 * 36 * sarea
        Xpower := 4
        Ypower := 0
        gateX := some (mkGate alpha_n beta_n)
        gateY := none } }

/-- Modelled from the spec and the notebook existence check: the relevant
slice of the moose element tree is whether `/library/comp` exists and, if so,
the state of that compartment. -/
def LibraryState := Option CompState

/-- Transcription of `get_hh_proto`: if the prototype already exists under
`/library` it is returned unchanged with no re-initialization (the early
`moose.exists` return); otherwise it is built, stored and returned. -/
noncomputable def get_hh_proto : LibraryState → CompState × LibraryState
  | some c => (c, some c)
  | none => (build_hh_proto, some build_hh_proto)

/-- Library state after one call of `get_hh_proto`. -/
noncomputable def get_hh_proto_state (s : LibraryState) : LibraryState :=
  (get_hh_proto s).2

/-- C10: `get_hh_proto` is idempotent.  (i) When the prototype exists, a call
returns exactly that compartment with the library unchanged (no parameter,
channel or gate-table re-initialization); (ii) a second call after any first
call returns the same compartment and the same library state; (iii) any
number of further calls leaves the state of the first call unchanged. -/
theorem get_hh_proto_idempotent :
    (∀ c : CompState, get_hh_proto (some c) = (c, some c)) ∧
    (∀ s : LibraryState, get_hh_proto (get_hh_proto_state s) =
      ((get_hh_proto s).1, get_hh_proto_state s)) ∧
    (∀ (s : LibraryState) (n : ℕ),
      get_hh_proto_state^[n + 1] s = get_hh_proto_state s) := by
  refine ⟨fun c => rfl, ?_, ?_⟩
  · intro s
    cases s with
    | none => rfl
    | some c => rfl
  · intro s n
    induction n generalizing s with
    | zero => rfl
    | succ m ih =>
      rw [Function.iterate_succ_apply, ih (get_hh_proto_state s)]
      cases s with
      | none => rfl
      | some c => rfl

end MooseNb
